import Mathlib

/-
Shallow embedding of the two scripts of lappis-unb/EbL_Over_PbL:
`extract_data/extract_user.py` (class GitHubContributors) and
`extract_data/extract_contribution.py` (classes GitHubUserData,
CSVProcessor, GitHubContributorSummary).

Remote HTTP traffic is modelled as explicit response data; an exception
raised by the `requests` library is modelled by `Except.error` or by a
boolean success flag on the attempt that raised it.  Python dictionaries
are modelled as insertion-ordered association lists, the order being
observable (Python dicts preserve insertion order and `max` iterates in
that order).
-/

/-! ### extract_user.py : GitHubContributors -/

/-- One commit object of the commits endpoint: `commit["author"]` may be
null; when it is present, `commit["author"]["login"]` is the identity. -/
structure CommitJ where
  author : Option String
deriving DecidableEq

/-- One page of the paginated commits endpoint together with the outcomes
of the at most two fetch attempts the retry loop of
`GitHubContributors.get_commits` makes for it: `ok1` tells whether the
first `requests.get` for this page succeeds, `ok2` whether the second one
(executed only after the first raised a `RequestException`) succeeds.
`items` is the JSON payload of the page; the list order of a
`List PageSpec` models following `response.links["next"]["url"]`. -/
structure PageSpec where
  ok1 : Bool
  ok2 : Bool
  items : List CommitJ
deriving DecidableEq

/-- Observable trace of the inner retry loop of `get_commits` for one page
(`while attempts < 2 and not success`): commits gained from the page, how
many times `requests.get` was invoked, how many seconds were spent inside
`time.sleep(5)` calls, and whether the loop left `url` pointing at the
next page (`proceed = false` models `url = None`: the repository's
remaining pages are abandoned). -/
structure PageOutcome where
  gained : List CommitJ
  calls : Nat
  sleptSeconds : Nat
  proceed : Bool
deriving DecidableEq

/-- Inner retry loop of `get_commits`, unrolled: the first attempt, on
failure a `time.sleep(5)` and a second attempt, on failure of that a
second `time.sleep(5)` and `url = None`. -/
def fetchPage (p : PageSpec) : PageOutcome :=
  if p.ok1 then ⟨p.items, 1, 0, true⟩
  else if p.ok2 then ⟨p.items, 2, 5, true⟩
  else ⟨[], 2, 10, false⟩

/-- `GitHubContributors.get_commits`: walk the page chain, handling each
page as `fetchPage` does; on a page whose two attempts both fail, return
the commits collected so far (no exception escapes). -/
def getCommits : List PageSpec → List CommitJ
  | [] => []
  | p :: rest =>
    if (fetchPage p).proceed then (fetchPage p).gained ++ getCommits rest
    else (fetchPage p).gained

/-- Loop of `GitHubContributors.get_contributors`: insert the author login
of every commit that has an author into the running set. -/
def contributorsFold (s : Finset String) : List CommitJ → Finset String
  | [] => s
  | c :: cs =>
    match c.author with
    | some login => contributorsFold (insert login s) cs
    | none => contributorsFold s cs

/-- `GitHubContributors.get_contributors` (starts from the empty set). -/
def getContributors (commits : List CommitJ) : Finset String :=
  contributorsFold ∅ commits

/-- Repository loop of `GitHubContributors.run`: union the per-repository
contributor sets, each obtained from that repository's commit pages. -/
def runAll (repos : List String) (pagesOf : String → List PageSpec) : Finset String :=
  repos.foldl (fun all r => all ∪ getContributors (getCommits (pagesOf r))) ∅

/-- `GitHubContributors.run` including `get_repositories`, whose
`response.raise_for_status()` is not wrapped in any try/except: a failing
repository listing propagates as an exception (`Except.error`) out of the
whole run. -/
def runCollect (repoListing : Except Unit (List String))
    (pagesOf : String → List PageSpec) : Except Unit (Finset String) :=
  match repoListing with
  | Except.error e => Except.error e
  | Except.ok repos => Except.ok (runAll repos pagesOf)

/-! ### extract_contribution.py : GitHubUserData — response data model -/

/-- `repo["primaryLanguage"]` node: an object carrying a `name` field that
may itself be null. -/
structure PrimaryLang where
  name : Option String
deriving DecidableEq

/-- One repository node of the repository-listing query. -/
structure RepoNode where
  primaryLanguage : Option PrimaryLang
deriving DecidableEq

/-- `user.repositories`: total count plus up to 100 listed nodes. -/
structure Repositories where
  totalCount : Nat
  nodes : List RepoNode
deriving DecidableEq

/-- One `contributionDays` entry of the contribution calendar:
a date string `"YYYY-MM-DD"` and that day's count. -/
structure ContribDay where
  date : String
  contributionCount : Nat
deriving DecidableEq

/-- One `weeks` entry of the contribution calendar. -/
structure Week where
  contributionDays : List ContribDay
deriving DecidableEq

/-- One `…ContributionsByRepository` entry: `contributions.totalCount`. -/
structure RepoContrib where
  totalCount : Nat
deriving DecidableEq

/-- `user.contributionsCollection` of the windowed query. -/
structure ContributionsCollection where
  totalContributions : Nat
  weeks : List Week
  commitContributionsByRepository : List RepoContrib
  pullRequestContributionsByRepository : List RepoContrib
  issueContributionsByRepository : List RepoContrib
  pullRequestReviewContributionsByRepository : List RepoContrib
deriving DecidableEq

/-- The `data.user` object handed to `_parse_user_data`.  The windowed
query never requests `repositories`, so for responses of that query the
`repositories` component is the empty default `{}` that
`user_data.get("repositories", {})` produces. -/
structure UserData where
  contributionsCollection : ContributionsCollection
  repositories : Repositories
deriving DecidableEq

/-- One HTTP response of the windowed GraphQL query as
`_get_user_data_for_year` inspects it: the status code, whether the JSON
body contains an `"errors"` key, and `data.user` (`none` models both a
null user and an absent one, the falsy cases of `if not user_data`). -/
structure YearResponse where
  status : Nat
  hasErrors : Bool
  user : Option UserData
deriving DecidableEq

/-- One HTTP response of the repository-listing query as
`_get_additional_user_data` inspects it; `user` here is the user's
`repositories` object. -/
structure AddResponse where
  status : Nat
  hasErrors : Bool
  user : Option Repositories
deriving DecidableEq

/-! ### Insertion-ordered counter dictionaries -/

/-- `d[k] += v` on an insertion-ordered dict of integer counters
(`defaultdict(int)` or `d.get(k, 0) + 1`): the first entry with key `k` is
incremented in place; an absent key is appended at the end. -/
def bumpBy : List (String × Nat) → String → Nat → List (String × Nat)
  | [], k, v => [(k, v)]
  | (k0, v0) :: rest, k, v =>
    if k0 = k then (k0, v0 + v) :: rest else (k0, v0) :: bumpBy rest k v

/-- Sum of the values of a counter dict (`sum(d.values())`). -/
def sumVals (d : List (String × Nat)) : Nat := (d.map Prod.snd).sum

/-- `for key, count in src.items(): acc[key] += count` — the additive merge
`get_user_data` applies to the monthly and category dicts. -/
def mergeInto (acc src : List (String × Nat)) : List (String × Nat) :=
  src.foldl (fun a p => bumpBy a p.1 p.2) acc

/-! ### _parse_user_data -/

/-- `date.strftime("%Y-%m")` after `strptime(day["date"], "%Y-%m-%d")`:
for the calendar's date strings this is their first seven characters. -/
def monthKey (date : String) : String := date.take 7

/-- Inner loop of the monthly re-bucketing:
`monthly_contributions[month] += day["contributionCount"]`. -/
def addDays (acc : List (String × Nat)) (days : List ContribDay) : List (String × Nat) :=
  days.foldl (fun a d => bumpBy a (monthKey d.date) d.contributionCount) acc

/-- Both loops of the monthly re-bucketing over the calendar weeks. -/
def buildMonthly (weeks : List Week) : List (String × Nat) :=
  weeks.foldl (fun a w => addDays a w.contributionDays) []

/-- `sum(repo["contributions"]["totalCount"] for repo in l)`. -/
def sumTotalCounts (l : List RepoContrib) : Nat := (l.map RepoContrib.totalCount).sum

/-- The `languages` counting step shared by `_parse_user_data` and
`_get_additional_user_data`: a repository is counted under `language` iff
`repo.get("primaryLanguage")` is not None and its `name` is truthy
(present and non-empty). -/
def detected (repo : RepoNode) : Option String :=
  match repo.primaryLanguage with
  | none => none
  | some pl =>
    match pl.name with
    | none => none
    | some l => if l = "" then none else some l

/-- The `languages` dict built over the repository nodes. -/
def buildLangs (nodes : List RepoNode) : List (String × Nat) :=
  nodes.foldl (fun acc r =>
    match detected r with
    | some l => bumpBy acc l 1
    | none => acc) []

/-- Scan step of Python's `max(..., key=...)`: the running best is replaced
only on a strictly greater key value, so the earliest maximum wins. -/
def pyMaxVal : (String × Nat) → List (String × Nat) → (String × Nat)
  | best, [] => best
  | (bk, bv), (k, v) :: rest =>
    if v > bv then pyMaxVal (k, v) rest else pyMaxVal (bk, bv) rest

/-- `max(languages, key=languages.get)` over an insertion-ordered dict
(`none` when the dict is empty and `max` would raise). -/
def pyMaxKey : List (String × Nat) → Option String
  | [] => none
  | x :: rest => some (pyMaxVal x rest).1

/-- `max(languages, key=languages.get) if languages else "N/A"`. -/
def primaryLanguageOf (nodes : List RepoNode) : String :=
  (pyMaxKey (buildLangs nodes)).getD "N/A"

/-- Parsed per-window data (the dict `_parse_user_data` returns). -/
structure ParsedData where
  contributions : Nat
  repositories : Nat
  primary_language : String
  monthly_contributions : List (String × Nat)
  contribution_types : List (String × Nat)
deriving DecidableEq

/-- `GitHubUserData._parse_user_data`. -/
def parseUserData (u : UserData) : ParsedData :=
  ⟨u.contributionsCollection.totalContributions,
   u.repositories.totalCount,
   primaryLanguageOf u.repositories.nodes,
   buildMonthly u.contributionsCollection.weeks,
   [("commits", sumTotalCounts u.contributionsCollection.commitContributionsByRepository),
    ("pull_requests", sumTotalCounts u.contributionsCollection.pullRequestContributionsByRepository),
    ("issues", sumTotalCounts u.contributionsCollection.issueContributionsByRepository),
    ("reviews", sumTotalCounts u.contributionsCollection.pullRequestReviewContributionsByRepository)]⟩

/-- `GitHubUserData._empty_user_data`. -/
def emptyUserData : ParsedData := ⟨0, 0, "N/A", [], []⟩

/-- Response handling of `GitHubUserData._get_user_data_for_year`: a
non-200 status, an `"errors"` key, or a missing user each degrade the
window immediately to `_empty_user_data()`; otherwise the body is parsed. -/
def getUserDataForYear (r : YearResponse) : ParsedData :=
  if r.status = 200 then
    if r.hasErrors then emptyUserData
    else
      match r.user with
      | none => emptyUserData
      | some u => parseUserData u
  else emptyUserData

/-- `_get_user_data_for_year` seen against the sequence of responses the
transport would give to successive attempts: the source performs exactly
one `requests.post` (attempt 0) and has no retry loop, so only `fetch 0`
is ever consumed. -/
def getUserDataForYearFetch (fetch : Nat → YearResponse) : ParsedData :=
  getUserDataForYear (fetch 0)

/-- Data returned by `_get_additional_user_data`. -/
structure AddData where
  repositories : Nat
  primary_language : String
deriving DecidableEq

/-- `GitHubUserData._get_additional_user_data` response handling. -/
def getAdditionalUserData (r : AddResponse) : AddData :=
  if r.status = 200 then
    if r.hasErrors then ⟨0, "N/A"⟩
    else
      match r.user with
      | none => ⟨0, "N/A"⟩
      | some repos => ⟨repos.totalCount, primaryLanguageOf repos.nodes⟩
  else ⟨0, "N/A"⟩

/-! ### get_user_data : the per-user aggregation -/

/-- Running accumulators of `get_user_data`: `total_contributions`,
`monthly_contributions`, `contribution_types`. -/
structure Agg where
  total : Nat
  monthly : List (String × Nat)
  types : List (String × Nat)
deriving DecidableEq

/-- One iteration of the year loop of `get_user_data`. -/
def stepAgg (acc : Agg) (d : ParsedData) : Agg :=
  ⟨acc.total + d.contributions,
   mergeInto acc.monthly d.monthly_contributions,
   mergeInto acc.types d.contribution_types⟩

/-- The dict `get_user_data` returns. -/
structure Summary where
  contributions : Nat
  repositories : Nat
  primary_language : String
  monthly_contributions : List (String × Nat)
  contribution_types : List (String × Nat)
deriving DecidableEq

/-- `get_user_data` folded over already-parsed per-window data. -/
def getUserDataP (ps : List ParsedData) (a : AddResponse) : Summary :=
  ⟨(ps.foldl stepAgg ⟨0, [], []⟩).total,
   (getAdditionalUserData a).repositories,
   (getAdditionalUserData a).primary_language,
   (ps.foldl stepAgg ⟨0, [], []⟩).monthly,
   (ps.foldl stepAgg ⟨0, [], []⟩).types⟩

/-- `GitHubUserData.get_user_data`, given the windowed responses in year
order (the loop fetches each year's response and folds it in) and the
additional-data response. -/
def getUserData (rs : List YearResponse) (a : AddResponse) : Summary :=
  getUserDataP (rs.map getUserDataForYear) a

/-! ### generate_summary and the failure boundary -/

/-- Row assembled for one user inside `generate_summary`'s loop. -/
structure RowOut where
  user : String
  data : Summary
deriving DecidableEq

/-- Per-user loop of `GitHubContributorSummary.generate_summary`: the body
is wrapped in `try/except Exception`, so a user whose processing raises is
skipped and the run continues.  `getData` is the Except-valued oracle
standing for `get_user_data` (whose `requests.post` may raise). -/
def processUsers (users : List String) (getData : String → Except Unit Summary) : List RowOut :=
  users.foldl (fun rows u =>
    match getData u with
    | Except.ok s => rows ++ [⟨u, s⟩]
    | Except.error _ => rows) []

/-- Whole run of the contribution script: opening the output CSV
(`CSVProcessor._initialize_csv`, called from the constructor) and reading
the input CSV (`read_users`) happen outside the per-user try/except. -/
def summaryRun (openOut : Except Unit Unit) (readU : Except Unit (List String))
    (getData : String → Except Unit Summary) : Except Unit (List RowOut) :=
  match openOut with
  | Except.error e => Except.error e
  | Except.ok _ =>
    match readU with
    | Except.error e => Except.error e
    | Except.ok users => Except.ok (processUsers users getData)

/-! ### Failure shapes and response-consistency (claims C1, C3, C4) -/

/-- The three shapes on which `_get_user_data_for_year` degrades a window
to `_empty_user_data()`: non-2xx status, an `"errors"` payload, or a
missing/null user. -/
def respFailed (r : YearResponse) : Prop :=
  r.status ≠ 200 ∨ r.hasErrors = true ∨ r.user = none

/-- Sum of all daily counts of a window response's contribution calendar. -/
def dayCountSum (u : UserData) : Nat :=
  (u.contributionsCollection.weeks.map
    (fun w => (w.contributionDays.map ContribDay.contributionCount).sum)).sum

/-- Sum of the four per-category repository totals of a window response. -/
def categorySum (u : UserData) : Nat :=
  sumTotalCounts u.contributionsCollection.commitContributionsByRepository +
  sumTotalCounts u.contributionsCollection.pullRequestContributionsByRepository +
  sumTotalCounts u.contributionsCollection.issueContributionsByRepository +
  sumTotalCounts u.contributionsCollection.pullRequestReviewContributionsByRepository

/-- Internal consistency of per-window data: its count agrees with both
the sum of its monthly values and the sum of its category values. -/
def pConsistent (p : ParsedData) : Prop :=
  p.contributions = sumVals p.monthly_contributions ∧
  p.contributions = sumVals p.contribution_types

/-- Internal consistency of a windowed response, required only on the
successful parse path: the reported `totalContributions` equals the sum of
the daily calendar counts and the sum of the four category totals. -/
def consistentResp (r : YearResponse) : Prop :=
  r.status = 200 → r.hasErrors = false → ∀ u, r.user = some u →
    u.contributionsCollection.totalContributions = dayCountSum u ∧
    u.contributionsCollection.totalContributions = categorySum u

/-! ### Spec-side vocabulary for the primary-language claim (C5) -/

/-- Keys of an association-list dict, in order. -/
def keysOf (d : List (String × Nat)) : List String := d.map Prod.fst

/-- Number of occurrences of `k` in a list of language names. -/
def countOcc : List String → String → Nat
  | [], _ => 0
  | x :: xs, k => if x = k then countOcc xs k + 1 else countOcc xs k

/-- First-occurrence deduplication, carrying the set of names already
seen: the insertion order of a Python dict keyed by these names. -/
def dedupFirstAux (seen : List String) : List String → List String
  | [] => []
  | x :: xs => if x ∈ seen then dedupFirstAux seen xs else x :: dedupFirstAux (x :: seen) xs

/-- The distinct names of a list in order of first occurrence. -/
def dedupFirst (l : List String) : List String := dedupFirstAux [] l

/-- Greatest value of `c` over a list of names (0 on the empty list). -/
def maxOver (c : String → Nat) : List String → Nat
  | [] => 0
  | x :: xs => max (c x) (maxOver c xs)

/-- Greatest occurrence count among the distinct names of `l`. -/
def maxCountOf (l : List String) : Nat := maxOver (fun k => countOcc l k) (dedupFirst l)

/-- First element of a list satisfying a predicate. -/
def firstSuch (p : String → Bool) : List String → Option String
  | [] => none
  | x :: xs => if p x then some x else firstSuch p xs

/-- The detected languages of the listed repositories, in listing order. -/
def langsOf (nodes : List RepoNode) : List String := nodes.filterMap detected

/-! ### Contribution windows (claim C6) -/

/-- `range(start_year, current_year + 1)` with `start_year = 2017`. -/
def yearsList (currentYear : Nat) : List Nat := List.range' 2017 (currentYear + 1 - 2017)

/-- A timestamp at the second granularity of the ISO strings
`f"{year}-01-01T00:00:00Z"` / `f"{year}-12-31T23:59:59Z"` the year loop
of `get_user_data` builds. -/
structure DateTime where
  year : Nat
  month : Nat
  day : Nat
  hour : Nat
  minute : Nat
  second : Nat
deriving DecidableEq

/-- Chronological order of second-granularity timestamps: lexicographic on
(year, month, day, hour, minute, second). -/
def dtLe (a b : DateTime) : Prop :=
  a.year < b.year ∨ (a.year = b.year ∧
    (a.month < b.month ∨ (a.month = b.month ∧
      (a.day < b.day ∨ (a.day = b.day ∧
        (a.hour < b.hour ∨ (a.hour = b.hour ∧
          (a.minute < b.minute ∨ (a.minute = b.minute ∧
            a.second ≤ b.second)))))))))

/-- A well-formed timestamp: calendar fields in range. -/
def validDT (t : DateTime) : Prop :=
  1 ≤ t.month ∧ t.month ≤ 12 ∧ 1 ≤ t.day ∧ t.day ≤ 31 ∧
  t.hour ≤ 23 ∧ t.minute ≤ 59 ∧ t.second ≤ 59

/-- `from_date = f"{year}-01-01T00:00:00Z"`. -/
def startOfYear (y : Nat) : DateTime := ⟨y, 1, 1, 0, 0, 0⟩

/-- `to_date = f"{year}-12-31T23:59:59Z"`. -/
def endOfYear (y : Nat) : DateTime := ⟨y, 12, 31, 23, 59, 59⟩

/-- The contribution windows `get_user_data` enumerates, one per year of
`range(2017, current_year + 1)`. -/
def windowsList (currentYear : Nat) : List (DateTime × DateTime) :=
  (yearsList currentYear).map (fun y => (startOfYear y, endOfYear y))

/-- Membership of a timestamp in a (closed) window. -/
def inWindow (w : DateTime × DateTime) (t : DateTime) : Prop :=
  dtLe w.1 t ∧ dtLe t w.2

/-! ### CSVProcessor.write_user_data (claim C10) -/

/-- A Python value stored in the per-user result dict: a string, an
integer, or a counter mapping. -/
inductive PyVal where
  | vStr : String → PyVal
  | vInt : Nat → PyVal
  | vMap : List (String × Nat) → PyVal
deriving DecidableEq

/-- A single-quote character, written via its code point. -/
def quoteMark : String := String.singleton (Char.ofNat 39)

/-- One `'key': value` piece of Python's `str` of a dict entry. -/
def pyReprEntry (p : String × Nat) : String :=
  quoteMark ++ p.1 ++ quoteMark ++ ": " ++ toString p.2

/-- Python's `str` of an insertion-ordered dict of integer counters,
e.g. `\x7b'2017-01': 3, '2017-02': 4\x7d`. -/
def pyStrMap (m : List (String × Nat)) : String :=
  "\x7b" ++ String.intercalate ", " (m.map pyReprEntry) ++ "\x7d"

/-- Python's `str` applied to a dict value. -/
def pyStr : PyVal → String
  | PyVal.vStr s => s
  | PyVal.vInt n => toString n
  | PyVal.vMap m => pyStrMap m

/-- `d[k]` on an insertion-ordered dict (None models a KeyError). -/
def getKey : List (String × PyVal) → String → Option PyVal
  | [], _ => none
  | (k0, v0) :: rest, k => if k0 = k then some v0 else getKey rest k

/-- `d[k] = v` on an insertion-ordered dict: overwrite the first entry
with key `k` in place, or append a new entry. -/
def setKey : List (String × PyVal) → String → PyVal → List (String × PyVal)
  | [], k, v => [(k, v)]
  | (k0, v0) :: rest, k, v =>
    if k0 = k then (k0, v) :: rest else (k0, v0) :: setKey rest k v

/-- `CSVProcessor.write_user_data`'s mutation of its `result` argument,
in source order: read `result["monthly_contributions"]`, overwrite it with
its stringification, then read `result["contribution_types"]` from the
updated dict and overwrite it likewise (`none` models a KeyError on a
dict lacking one of the keys). -/
def writeUserData (result : List (String × PyVal)) : Option (List (String × PyVal)) :=
  match getKey result "monthly_contributions" with
  | none => none
  | some m =>
    let r1 := setKey result "monthly_contributions" (PyVal.vStr (pyStr m))
    match getKey r1 "contribution_types" with
    | none => none
    | some t => some (setKey r1 "contribution_types" (PyVal.vStr (pyStr t)))

/-! ### Concrete response data used by witnesses and counterexamples -/

/-- A consistent windowed response body: 2 reported contributions, one
calendar day of count 2, one repository with 2 commit contributions. -/
def w1user : UserData :=
  ⟨⟨2, [⟨[⟨"2017-01-05", 2⟩]⟩], [⟨2⟩], [], [], []⟩, ⟨0, []⟩⟩

/-- An inconsistent windowed response: 1 reported contribution but an
empty daily calendar and empty category lists. -/
def x1resp : YearResponse :=
  ⟨200, false, some ⟨⟨1, [], [], [], [], []⟩, ⟨0, []⟩⟩⟩

/-- A repository listing with two detected languages, "Python" twice and
"Java" once. -/
def w5nodes : List RepoNode :=
  [⟨some ⟨some "Python"⟩⟩, ⟨some ⟨some "Java"⟩⟩, ⟨some ⟨some "Python"⟩⟩]

/-! ## Theorems -/

/-! ### Contributor-set lemmas -/

theorem contributorsFold_mem (cs : List CommitJ) :
    ∀ (s : Finset String) (a : String),
      a ∈ contributorsFold s cs ↔ a ∈ s ∨ ∃ c ∈ cs, c.author = some a := by
  induction cs with
  | nil => intro s a; simp [contributorsFold]
  | cons c cs ih =>
    intro s a
    cases h : c.author with
    | none =>
      simp only [contributorsFold, h, ih, List.mem_cons]
      constructor
      · rintro (hs | ⟨d, hd, hda⟩)
        · exact Or.inl hs
        · exact Or.inr ⟨d, Or.inr hd, hda⟩
      · rintro (hs | ⟨d, (rfl | hd), hda⟩)
        · exact Or.inl hs
        · rw [h] at hda; cases hda
        · exact Or.inr ⟨d, hd, hda⟩
    | some l =>
      simp only [contributorsFold, h, ih, Finset.mem_insert, List.mem_cons]
      constructor
      · rintro ((rfl | hs) | ⟨d, hd, hda⟩)
        · exact Or.inr ⟨c, Or.inl rfl, h⟩
        · exact Or.inl hs
        · exact Or.inr ⟨d, Or.inr hd, hda⟩
      · rintro (hs | ⟨d, (rfl | hd), hda⟩)
        · exact Or.inl (Or.inr hs)
        · rw [h] at hda
          exact Or.inl (Or.inl (Option.some_injective _ hda).symm)
        · exact Or.inr ⟨d, hd, hda⟩

theorem getContributors_mem (commits : List CommitJ) (a : String) :
    a ∈ getContributors commits ↔ ∃ c ∈ commits, c.author = some a := by
  simp [getContributors, contributorsFold_mem]

theorem runAll_mem (repos : List String) (pagesOf : String → List PageSpec)
    (a : String) :
    a ∈ runAll repos pagesOf ↔
      ∃ r ∈ repos, ∃ c ∈ getCommits (pagesOf r), c.author = some a := by
  suffices h : ∀ (l : List String) (s : Finset String),
      a ∈ l.foldl (fun all r => all ∪ getContributors (getCommits (pagesOf r))) s ↔
        a ∈ s ∨ ∃ r ∈ l, ∃ c ∈ getCommits (pagesOf r), c.author = some a by
    simpa [runAll] using h repos ∅
  intro l
  induction l with
  | nil => intro s; simp
  | cons r l ih =>
    intro s
    simp only [List.foldl_cons, ih, Finset.mem_union, getContributors_mem,
      List.mem_cons]
    constructor
    · rintro ((hs | hc) | ⟨r', hr', hc'⟩)
      · exact Or.inl hs
      · exact Or.inr ⟨r, Or.inl rfl, hc⟩
      · exact Or.inr ⟨r', Or.inr hr', hc'⟩
    · rintro (hs | ⟨r', (rfl | hr'), hc'⟩)
      · exact Or.inl (Or.inl hs)
      · exact Or.inl (Or.inr hc')
      · exact Or.inr ⟨r', hr', hc'⟩

/-- Claim C7: the identity set produced by `run` is exactly the set of
author logins of the commits (across all repositories' fetched pages)
that have a non-absent author; being a finite set it holds no duplicate
even when an author appears in many commits or repositories, and a commit
with `author = none` contributes nothing. -/
theorem contributor_set_exact (repos : List String) (pagesOf : String → List PageSpec) :
    runAll repos pagesOf =
      (((repos.map (fun r => getCommits (pagesOf r))).flatten).filterMap CommitJ.author).toFinset := by
  ext a
  rw [runAll_mem]
  simp only [List.mem_toFinset, List.mem_filterMap, List.mem_flatten, List.mem_map]
  constructor
  · rintro ⟨r, hr, c, hc, hca⟩
    exact ⟨c, ⟨getCommits (pagesOf r), ⟨r, hr, rfl⟩, hc⟩, hca⟩
  · rintro ⟨c, ⟨l, ⟨r, hr, rfl⟩, hc⟩, hca⟩
    exact ⟨r, hr, c, hc, hca⟩

/-! ### Retry behaviour of get_commits (claims C2, C8) -/

/-- Claim C2 counterexample: on a page whose fetch fails on every attempt,
`requests.get` is invoked exactly twice — the initial attempt plus a
single retry — and not the three invocations that a budget of exactly two
retries would produce. -/
theorem get_commits_retry_counterexample :
    (fetchPage ⟨false, false, []⟩).calls = 2 ∧
    (fetchPage ⟨false, false, []⟩).calls ≠ 3 := by
  constructor <;> decide

/-- Claim C2 (amended): per page, a failed attempt is retried at most once
(two invocations in total), 5 seconds are slept after every failed
attempt (including the final one); when both attempts fail the page
resolves to a failed signal — `url = None`, so `get_commits` returns
normally instead of raising. -/
theorem get_commits_retry_budget (p : PageSpec) (rest : List PageSpec)
    (h1 : p.ok1 = false) :
    (fetchPage p).calls = 2 ∧
    (p.ok2 = true → (fetchPage p).proceed = true ∧ (fetchPage p).sleptSeconds = 5 ∧
      getCommits (p :: rest) = p.items ++ getCommits rest) ∧
    (p.ok2 = false → (fetchPage p).proceed = false ∧ (fetchPage p).sleptSeconds = 10 ∧
      getCommits (p :: rest) = []) := by
  refine ⟨?_, ?_, ?_⟩
  · cases h2 : p.ok2 <;> simp [fetchPage, h1, h2]
  · intro h2; simp [fetchPage, getCommits, h1, h2]
  · intro h2; simp [fetchPage, getCommits, h1, h2]

theorem get_commits_retry_budget_witness :
    (⟨false, false, [⟨some "a"⟩]⟩ : PageSpec).ok1 = false ∧
    getCommits [⟨false, false, [⟨some "a"⟩]⟩] = [] := by
  refine ⟨rfl, ?_⟩
  exact (get_commits_retry_budget ⟨false, false, [⟨some "a"⟩]⟩ [] rfl).2.2 rfl |>.2.2

/-- Claim C8: when the retry budget is exhausted on some page, the pages
fetched before it (each of which succeeded on its first or second attempt)
contribute exactly their commits, the failing page and everything after it
are abandoned, and `get_commits` returns normally with those commits. -/
theorem get_commits_keeps_collected (good : List PageSpec) (bad : PageSpec)
    (more : List PageSpec)
    (hg : ∀ g ∈ good, g.ok1 = true ∨ g.ok2 = true)
    (hb1 : bad.ok1 = false) (hb2 : bad.ok2 = false) :
    getCommits (good ++ bad :: more) = (good.map PageSpec.items).flatten := by
  induction good with
  | nil => simp [getCommits, fetchPage, hb1, hb2]
  | cons g gs ih =>
    have hgp : (fetchPage g).proceed = true ∧ (fetchPage g).gained = g.items := by
      rcases hg g (List.mem_cons_self g gs) with h | h
      · simp [fetchPage, h]
      · cases h1 : g.ok1 <;> simp [fetchPage, h1, h]
    have ih' := ih (fun x hx => hg x (List.mem_cons_of_mem g hx))
    simp only [List.cons_append, getCommits, hgp.1, hgp.2, if_true,
      List.append_eq, ih', List.map_cons, List.flatten_cons]

theorem get_commits_keeps_collected_witness :
    (∀ g ∈ [(⟨true, false, [⟨some "a"⟩]⟩ : PageSpec)], g.ok1 = true ∨ g.ok2 = true) ∧
    getCommits [⟨true, false, [⟨some "a"⟩]⟩, ⟨false, false, [⟨some "b"⟩]⟩] =
      [⟨some "a"⟩] := by
  have hg : ∀ g ∈ [(⟨true, false, [⟨some "a"⟩]⟩ : PageSpec)], g.ok1 = true ∨ g.ok2 = true := by
    intro g hgm
    simp only [List.mem_singleton] at hgm
    subst hgm
    exact Or.inl rfl
  refine ⟨hg, ?_⟩
  have h := get_commits_keeps_collected [⟨true, false, [⟨some "a"⟩]⟩]
    ⟨false, false, [⟨some "b"⟩]⟩ [] hg rfl rfl
  simpa using h

/-! ### Failure boundaries (claims C9, C3) -/

theorem processUsers_eq_filterMap (users : List String)
    (getData : String → Except Unit Summary) :
    processUsers users getData = users.filterMap (fun u =>
      match getData u with
      | Except.ok s => some ⟨u, s⟩
      | Except.error _ => none) := by
  suffices h : ∀ (l : List String) (rows : List RowOut),
      l.foldl (fun rows u =>
        match getData u with
        | Except.ok s => rows ++ [⟨u, s⟩]
        | Except.error _ => rows) rows =
      rows ++ l.filterMap (fun u =>
        match getData u with
        | Except.ok s => some ⟨u, s⟩
        | Except.error _ => none) by
    simpa [processUsers] using h users []
  intro l
  induction l with
  | nil => intro rows; simp
  | cons u l ih =>
    intro rows
    cases h : getData u with
    | ok s => simp [List.filterMap_cons, h, ih]
    | error e => simp [List.filterMap_cons, h, ih]

/-- Claim C9 counterexample: in the contributor collector, a failure of
the organisation repository listing (`get_repositories` performs
`raise_for_status()` outside any try/except) escapes past every entity
boundary and aborts the whole run, although it is neither a failure to
read the input file nor a failure to open the output storage. -/
theorem repo_listing_failure_counterexample :
    runCollect (Except.error ()) (fun _ => []) = Except.error () := rfl

/-- Claim C9 (amended): in the contribution summariser each identity's
processing is guarded, so the written rows are exactly the successful
identities' rows in order and the run aborts only when opening the output
CSV or reading the input CSV fails; in the contributor collector,
per-page request failures are absorbed by the retry loop, but a failure
of the organisation repository listing propagates and aborts the run. -/
theorem failure_boundary_model :
    (∀ (users : List String) (getData : String → Except Unit Summary),
      processUsers users getData = users.filterMap (fun u =>
        match getData u with
        | Except.ok s => some ⟨u, s⟩
        | Except.error _ => none)) ∧
    (∀ (openOut : Except Unit Unit) (readU : Except Unit (List String))
        (getData : String → Except Unit Summary),
      (summaryRun openOut readU getData).isOk = (openOut.isOk && readU.isOk)) ∧
    (∀ pagesOf : String → List PageSpec,
      runCollect (Except.error ()) pagesOf = Except.error ()) ∧
    (∀ (repos : List String) (pagesOf : String → List PageSpec),
      runCollect (Except.ok repos) pagesOf = Except.ok (runAll repos pagesOf)) := by
  refine ⟨processUsers_eq_filterMap, ?_, fun _ => rfl, fun _ _ => rfl⟩
  intro openOut readU getData
  cases openOut <;> cases readU <;> rfl

/-- Any of the three degradation shapes makes `_get_user_data_for_year`
return `_empty_user_data()`. -/
theorem year_failed (r : YearResponse) (h : respFailed r) :
    getUserDataForYear r = emptyUserData := by
  rcases h with h | h | h
  · simp [getUserDataForYear, h]
  · by_cases hs : r.status = 200 <;> simp [getUserDataForYear, hs, h]
  · by_cases hs : r.status = 200 <;> by_cases he : r.hasErrors <;>
      simp [getUserDataForYear, hs, he, h]

/-- Claim C3 counterexample: the per-year fetch is not wrapped in any
retry policy.  With a transport that fails transiently on the first
attempt (HTTP 500) and would succeed on a second attempt, the window
degrades immediately to the empty result even though a single retry would
have produced non-empty data. -/
theorem year_fetch_retry_counterexample :
    getUserDataForYearFetch (fun n =>
      if n = 0 then ⟨500, false, none⟩
      else ⟨200, false, some ⟨⟨7, [], [], [], [], []⟩, ⟨0, []⟩⟩⟩) = emptyUserData ∧
    getUserDataForYear ⟨200, false, some ⟨⟨7, [], [], [], [], []⟩, ⟨0, []⟩⟩⟩ ≠
      emptyUserData := by
  constructor
  · rfl
  · decide

/-- Claim C3 (amended): the windowed GraphQL query of
`_get_user_data_for_year` is performed exactly once — the result depends
only on the first attempt's response, and any failure of it (non-2xx
status, an errors payload, or a missing user) degrades the window to the
empty result immediately, with no retry. -/
theorem year_fetch_no_retry (f : Nat → YearResponse) (h : respFailed (f 0)) :
    getUserDataForYearFetch f = emptyUserData ∧
    ∀ g : Nat → YearResponse, g 0 = f 0 →
      getUserDataForYearFetch g = getUserDataForYearFetch f := by
  refine ⟨year_failed _ h, ?_⟩
  intro g hg
  simp [getUserDataForYearFetch, hg]

theorem year_fetch_no_retry_witness :
    respFailed ⟨500, false, none⟩ ∧
    getUserDataForYearFetch (fun _ => ⟨500, false, none⟩) = emptyUserData := by
  have h : respFailed (⟨500, false, none⟩ : YearResponse) := by
    unfold respFailed
    exact Or.inl (by decide)
  exact ⟨h, (year_fetch_no_retry (fun _ => ⟨500, false, none⟩) h).1⟩

/-! ### Counter-dict sum lemmas (claim C1) -/

theorem sumVals_bumpBy (d : List (String × Nat)) (k : String) (v : Nat) :
    sumVals (bumpBy d k v) = sumVals d + v := by
  induction d with
  | nil => simp [bumpBy, sumVals]
  | cons p rest ih =>
    obtain ⟨k0, v0⟩ := p
    by_cases h : k0 = k
    · simp only [bumpBy, if_pos h, sumVals, List.map_cons, List.sum_cons]
      omega
    · simp only [bumpBy, if_neg h, sumVals, List.map_cons, List.sum_cons] at ih ⊢
      omega

theorem sumVals_mergeInto (src : List (String × Nat)) :
    ∀ acc, sumVals (mergeInto acc src) = sumVals acc + sumVals src := by
  induction src with
  | nil => intro acc; simp [mergeInto, sumVals]
  | cons p rest ih =>
    intro acc
    have hstep : mergeInto acc (p :: rest) = mergeInto (bumpBy acc p.1 p.2) rest := rfl
    rw [hstep, ih, sumVals_bumpBy]
    simp only [sumVals, List.map_cons, List.sum_cons]
    omega

theorem sumVals_addDays (days : List ContribDay) :
    ∀ acc, sumVals (addDays acc days) =
      sumVals acc + (days.map ContribDay.contributionCount).sum := by
  induction days with
  | nil => intro acc; simp [addDays]
  | cons d rest ih =>
    intro acc
    have hstep : addDays acc (d :: rest) =
        addDays (bumpBy acc (monthKey d.date) d.contributionCount) rest := rfl
    rw [hstep, ih, sumVals_bumpBy]
    simp only [List.map_cons, List.sum_cons]
    omega

theorem sumVals_buildMonthly (weeks : List Week) :
    sumVals (buildMonthly weeks) =
      (weeks.map (fun w => (w.contributionDays.map ContribDay.contributionCount).sum)).sum := by
  suffices h : ∀ (l : List Week) (acc : List (String × Nat)),
      sumVals (l.foldl (fun a w => addDays a w.contributionDays) acc) =
        sumVals acc +
          (l.map (fun w => (w.contributionDays.map ContribDay.contributionCount).sum)).sum by
    simpa [buildMonthly, sumVals] using h weeks []
  intro l
  induction l with
  | nil => intro acc; simp
  | cons w rest ih =>
    intro acc
    simp only [List.foldl_cons, List.map_cons, List.sum_cons]
    rw [ih, sumVals_addDays]
    omega

theorem parse_pConsistent (u : UserData)
    (h1 : u.contributionsCollection.totalContributions = dayCountSum u)
    (h2 : u.contributionsCollection.totalContributions = categorySum u) :
    pConsistent (parseUserData u) := by
  constructor
  · show (parseUserData u).contributions = sumVals (parseUserData u).monthly_contributions
    simp only [parseUserData]
    rw [sumVals_buildMonthly]
    exact h1
  · show (parseUserData u).contributions = sumVals (parseUserData u).contribution_types
    simp only [parseUserData]
    simp only [categorySum] at h2
    simp only [sumVals, List.map_cons, List.map_nil, List.sum_cons, List.sum_nil]
    omega

theorem pConsistent_empty : pConsistent emptyUserData := ⟨rfl, rfl⟩

theorem year_pConsistent (r : YearResponse) (h : consistentResp r) :
    pConsistent (getUserDataForYear r) := by
  by_cases hs : r.status = 200
  · by_cases he : r.hasErrors = true
    · rw [year_failed r (Or.inr (Or.inl he))]; exact pConsistent_empty
    · cases hu : r.user with
      | none => rw [year_failed r (Or.inr (Or.inr hu))]; exact pConsistent_empty
      | some u =>
        have he' : r.hasErrors = false := by
          revert he; cases r.hasErrors <;> simp
        have hc := h hs he' u hu
        have hp : getUserDataForYear r = parseUserData u := by
          simp [getUserDataForYear, hs, he', hu]
        rw [hp]
        exact parse_pConsistent u hc.1 hc.2
  · rw [year_failed r (Or.inl hs)]; exact pConsistent_empty

theorem foldAgg_pConsistent (ps : List ParsedData) :
    ∀ acc : Agg, (∀ p ∈ ps, pConsistent p) →
      acc.total = sumVals acc.monthly → acc.total = sumVals acc.types →
      (ps.foldl stepAgg acc).total = sumVals (ps.foldl stepAgg acc).monthly ∧
      (ps.foldl stepAgg acc).total = sumVals (ps.foldl stepAgg acc).types := by
  induction ps with
  | nil => intro acc _ hm ht; exact ⟨hm, ht⟩
  | cons p rest ih =>
    intro acc h hm ht
    have hp := h p (List.mem_cons_self p rest)
    simp only [List.foldl_cons]
    apply ih
    · intro q hq; exact h q (List.mem_cons_of_mem p hq)
    · show (stepAgg acc p).total = sumVals (stepAgg acc p).monthly
      simp only [stepAgg]
      rw [sumVals_mergeInto]
      have := hp.1
      omega
    · show (stepAgg acc p).total = sumVals (stepAgg acc p).types
      simp only [stepAgg]
      rw [sumVals_mergeInto]
      have := hp.2
      omega

/-- Claim C1 (amended): whenever every windowed response that reaches the
parser is internally consistent — its reported `totalContributions`
equals the sum of its daily calendar counts and the sum of its four
per-category repository totals — the returned summary's
`total_contributions` equals the sum of the monthly map's values and the
sum of the `contribution_types` map's values.  (Without that premise the
three response fields are independent and the invariant fails, see the
counterexample.) -/
theorem total_matches_monthly_and_category_sums (rs : List YearResponse)
    (a : AddResponse) (h : ∀ r ∈ rs, consistentResp r) :
    (getUserData rs a).contributions = sumVals (getUserData rs a).monthly_contributions ∧
    (getUserData rs a).contributions = sumVals (getUserData rs a).contribution_types := by
  have hps : ∀ p ∈ rs.map getUserDataForYear, pConsistent p := by
    intro p hp
    rcases List.mem_map.mp hp with ⟨r, hr, rfl⟩
    exact year_pConsistent r (h r hr)
  exact foldAgg_pConsistent (rs.map getUserDataForYear) ⟨0, [], []⟩ hps rfl rfl

theorem total_matches_sums_witness :
    (∀ r ∈ [(⟨200, false, some w1user⟩ : YearResponse)], consistentResp r) ∧
    ((getUserData [⟨200, false, some w1user⟩] ⟨200, false, none⟩).contributions =
      sumVals (getUserData [⟨200, false, some w1user⟩] ⟨200, false, none⟩).monthly_contributions ∧
     (getUserData [⟨200, false, some w1user⟩] ⟨200, false, none⟩).contributions =
      sumVals (getUserData [⟨200, false, some w1user⟩] ⟨200, false, none⟩).contribution_types) := by
  have h : ∀ r ∈ [(⟨200, false, some w1user⟩ : YearResponse)], consistentResp r := by
    intro r hr
    simp only [List.mem_singleton] at hr
    subst hr
    intro _ _ u hu
    simp only [w1user] at hu
    cases hu
    constructor <;> decide
  exact ⟨h, total_matches_monthly_and_category_sums _ ⟨200, false, none⟩ h⟩

/-- Claim C1 counterexample: a windowed response may report
`totalContributions = 1` while carrying an empty daily calendar and empty
category lists; `get_user_data` then returns `total_contributions = 1`
against monthly and category sums of 0, so the unconditional invariant of
the claim is false. -/
theorem total_sums_counterexample :
    ¬ ((getUserData [x1resp] ⟨200, false, none⟩).contributions =
        sumVals (getUserData [x1resp] ⟨200, false, none⟩).monthly_contributions ∧
       (getUserData [x1resp] ⟨200, false, none⟩).contributions =
        sumVals (getUserData [x1resp] ⟨200, false, none⟩).contribution_types) := by
  decide

/-! ### Failed windows are zero windows (claim C4) -/

theorem list_set_of_getElem? (l : List ParsedData) :
    ∀ (i : Nat) (z : ParsedData), l[i]? = some z → l.set i z = l := by
  induction l with
  | nil => intro i z h; simp at h
  | cons x xs ih =>
    intro i z h
    cases i with
    | zero =>
      simp only [List.getElem?_cons_zero, Option.some.injEq] at h
      subst h
      rfl
    | succ n =>
      simp only [List.getElem?_cons_succ] at h
      simp only [List.set]
      rw [ih n z h]

theorem stepAgg_emptyUserData (acc : Agg) : stepAgg acc emptyUserData = acc := by
  cases acc with
  | mk t m ty => simp [stepAgg, emptyUserData, mergeInto]

theorem foldl_set_empty (l : List ParsedData) :
    ∀ (i : Nat) (acc : Agg),
      (l.set i emptyUserData).foldl stepAgg acc = (l.eraseIdx i).foldl stepAgg acc := by
  induction l with
  | nil => intro i acc; simp
  | cons x xs ih =>
    intro i acc
    cases i with
    | zero =>
      show (emptyUserData :: xs).foldl stepAgg acc = xs.foldl stepAgg acc
      simp only [List.foldl_cons, stepAgg_emptyUserData]
    | succ n =>
      show (x :: xs.set n emptyUserData).foldl stepAgg acc =
        (x :: xs.eraseIdx n).foldl stepAgg acc
      simp only [List.foldl_cons]
      exact ih n (stepAgg acc x)

/-- Claim C4: when the response of one window fails unrecoverably (user
not found, errors payload, or non-2xx status), the summary equals the one
computed with that window's parsed data replaced by the zero element
`_empty_user_data()`, and the zero window can equivalently be dropped
altogether — aggregation over the remaining windows is unaffected. -/
theorem failed_window_zero_substitution (rs : List YearResponse) (a : AddResponse)
    (i : Nat) (hi : i < rs.length) (hfail : respFailed rs[i]) :
    getUserData rs a = getUserDataP ((rs.map getUserDataForYear).set i emptyUserData) a ∧
    getUserDataP ((rs.map getUserDataForYear).set i emptyUserData) a =
      getUserDataP ((rs.map getUserDataForYear).eraseIdx i) a := by
  constructor
  · have hset : (rs.map getUserDataForYear).set i emptyUserData = rs.map getUserDataForYear := by
      apply list_set_of_getElem?
      rw [List.getElem?_map, List.getElem?_eq_getElem hi]
      show some (getUserDataForYear rs[i]) = some emptyUserData
      rw [year_failed rs[i] hfail]
    rw [hset]
    rfl
  · simp only [getUserDataP, foldl_set_empty]

theorem failed_window_zero_substitution_witness :
    0 < ([(⟨500, false, none⟩ : YearResponse)]).length ∧
    respFailed ([(⟨500, false, none⟩ : YearResponse)])[0] ∧
    getUserData [⟨500, false, none⟩] ⟨200, false, none⟩ =
      getUserDataP (([(⟨500, false, none⟩ : YearResponse)].map getUserDataForYear).set 0
        emptyUserData) ⟨200, false, none⟩ := by
  have hfail : respFailed ([(⟨500, false, none⟩ : YearResponse)])[0] := by
    unfold respFailed
    left
    decide
  exact ⟨by decide, hfail,
    (failed_window_zero_substitution [⟨500, false, none⟩] ⟨200, false, none⟩ 0
      (by decide) hfail).1⟩

/-! ### Window enumeration (claim C6) -/

theorem inWindow_iff (y : Nat) (t : DateTime) (hv : validDT t) :
    inWindow (startOfYear y, endOfYear y) t ↔ t.year = y := by
  obtain ⟨m1, m2, d1, d2, hh, hm, hs⟩ := hv
  simp only [inWindow, dtLe, startOfYear, endOfYear]
  constructor
  · intro h
    omega
  · intro h
    omega

theorem mem_yearsList (cy y : Nat) : y ∈ yearsList cy ↔ 2017 ≤ y ∧ y ≤ cy := by
  rw [yearsList, List.mem_range'_1]
  omega

/-- Claim C6: for any current year at least 2017, `get_user_data`
enumerates exactly one window per calendar year from 2017 through the
current year inclusive (the i-th window being year 2017 + i), and at the
second granularity of the window endpoints every well-formed timestamp
whose year lies in that span belongs to exactly one window — the windows
are non-overlapping and leave no gap. -/
theorem windows_partition_years (cy : Nat) (h : 2017 ≤ cy) :
    (windowsList cy).length = cy - 2016 ∧
    (∀ (i : Nat) (hi : i < (windowsList cy).length),
      (windowsList cy).get ⟨i, hi⟩ = (startOfYear (2017 + i), endOfYear (2017 + i))) ∧
    (∀ t : DateTime, validDT t → 2017 ≤ t.year → t.year ≤ cy →
      ∃! w, w ∈ windowsList cy ∧ inWindow w t) := by
  refine ⟨?_, ?_, ?_⟩
  · simp only [windowsList, yearsList, List.length_map, List.length_range']
    omega
  · intro i hi
    have hi2 : i < (yearsList cy).length := by
      simpa [windowsList] using hi
    have hy : (yearsList cy).get ⟨i, hi2⟩ = 2017 + i := by
      simp only [yearsList, List.get_eq_getElem]
      rw [List.getElem_range']
      omega
    calc (windowsList cy).get ⟨i, hi⟩
        = (startOfYear ((yearsList cy).get ⟨i, hi2⟩),
           endOfYear ((yearsList cy).get ⟨i, hi2⟩)) := by
          simp [windowsList, List.get_eq_getElem]
      _ = (startOfYear (2017 + i), endOfYear (2017 + i)) := by rw [hy]
  · intro t hv h1 h2
    refine ⟨(startOfYear t.year, endOfYear t.year), ⟨?_, ?_⟩, ?_⟩
    · rw [windowsList, List.mem_map]
      exact ⟨t.year, (mem_yearsList cy t.year).mpr ⟨h1, h2⟩, rfl⟩
    · exact (inWindow_iff t.year t hv).mpr rfl
    · rintro w ⟨hwm, hwin⟩
      rw [windowsList, List.mem_map] at hwm
      obtain ⟨y', _, rfl⟩ := hwm
      have : t.year = y' := (inWindow_iff y' t hv).mp hwin
      rw [this]

theorem windows_partition_years_witness :
    2017 ≤ 2024 ∧ (windowsList 2024).length = 2024 - 2016 :=
  ⟨by decide, (windows_partition_years 2024 (by decide)).1⟩

/-! ### write_user_data (claim C10) -/

theorem getKey_setKey_same (d : List (String × PyVal)) (k : String) (v : PyVal) :
    getKey (setKey d k v) k = some v := by
  induction d with
  | nil => simp [setKey, getKey]
  | cons p rest ih =>
    obtain ⟨k0, v0⟩ := p
    by_cases h : k0 = k
    · simp [setKey, getKey, h]
    · simp [setKey, getKey, h, ih]

theorem getKey_setKey_ne (d : List (String × PyVal)) (k k' : String) (v : PyVal)
    (h : k' ≠ k) : getKey (setKey d k v) k' = getKey d k' := by
  have h' : ¬ (k = k') := fun e => h e.symm
  induction d with
  | nil => simp [setKey, getKey, h']
  | cons p rest ih =>
    obtain ⟨k0, v0⟩ := p
    by_cases h0 : k0 = k
    · subst h0
      simp [setKey, getKey, h']
    · by_cases h1 : k0 = k'
      · simp [setKey, getKey, h0, h1, h]
      · simp [setKey, getKey, h0, h1, ih]

/-- Claim C10: `write_user_data` mutates its `result` dict in place —
afterwards the caller's dict holds the string rendering of the
`monthly_contributions` mapping and of the `contribution_types` mapping
in place of the original values, and every other key is unchanged. -/
theorem write_user_data_frame (result : List (String × PyVal)) (m t : PyVal)
    (hm : getKey result "monthly_contributions" = some m)
    (ht : getKey result "contribution_types" = some t) :
    ∃ d', writeUserData result = some d' ∧
      getKey d' "monthly_contributions" = some (PyVal.vStr (pyStr m)) ∧
      getKey d' "contribution_types" = some (PyVal.vStr (pyStr t)) ∧
      ∀ k, k ≠ "monthly_contributions" → k ≠ "contribution_types" →
        getKey d' k = getKey result k := by
  have hne : ("contribution_types" : String) ≠ "monthly_contributions" := by decide
  have ht1 : getKey (setKey result "monthly_contributions" (PyVal.vStr (pyStr m)))
      "contribution_types" = some t := by
    rw [getKey_setKey_ne _ _ _ _ hne]
    exact ht
  refine ⟨setKey (setKey result "monthly_contributions" (PyVal.vStr (pyStr m)))
    "contribution_types" (PyVal.vStr (pyStr t)), ?_, ?_, ?_, ?_⟩
  · unfold writeUserData
    rw [hm]
    dsimp only
    rw [ht1]
  · rw [getKey_setKey_ne _ _ _ _ (Ne.symm hne), getKey_setKey_same]
  · rw [getKey_setKey_same]
  · intro k hk1 hk2
    rw [getKey_setKey_ne _ _ _ _ hk2, getKey_setKey_ne _ _ _ _ hk1]

theorem write_user_data_frame_witness :
    getKey [("user", PyVal.vStr "alice"),
            ("monthly_contributions", PyVal.vMap [("2017-01", 3)]),
            ("contribution_types", PyVal.vMap [("commits", 3)])]
        "monthly_contributions" = some (PyVal.vMap [("2017-01", 3)]) ∧
    getKey [("user", PyVal.vStr "alice"),
            ("monthly_contributions", PyVal.vMap [("2017-01", 3)]),
            ("contribution_types", PyVal.vMap [("commits", 3)])]
        "contribution_types" = some (PyVal.vMap [("commits", 3)]) ∧
    ∃ d', writeUserData
        [("user", PyVal.vStr "alice"),
         ("monthly_contributions", PyVal.vMap [("2017-01", 3)]),
         ("contribution_types", PyVal.vMap [("commits", 3)])] = some d' ∧
      getKey d' "monthly_contributions" =
        some (PyVal.vStr (pyStr (PyVal.vMap [("2017-01", 3)]))) ∧
      getKey d' "contribution_types" =
        some (PyVal.vStr (pyStr (PyVal.vMap [("commits", 3)]))) ∧
      ∀ k, k ≠ "monthly_contributions" → k ≠ "contribution_types" →
        getKey d' k = getKey
          [("user", PyVal.vStr "alice"),
           ("monthly_contributions", PyVal.vMap [("2017-01", 3)]),
           ("contribution_types", PyVal.vMap [("commits", 3)])] k := by
  refine ⟨by decide, by decide, ?_⟩
  exact write_user_data_frame _ _ _ (by decide) (by decide)

/-! ### Language counting (claim C5) -/

theorem countOcc_cons_self (xs : List String) (x : String) :
    countOcc (x :: xs) x = countOcc xs x + 1 := by
  simp [countOcc]

theorem countOcc_cons_ne (xs : List String) (x k : String) (h : x ≠ k) :
    countOcc (x :: xs) k = countOcc xs k := by
  simp [countOcc, h]

theorem keysOf_bumpBy (d : List (String × Nat)) (k : String) (v : Nat) :
    keysOf (bumpBy d k v) =
      if k ∈ keysOf d then keysOf d else keysOf d ++ [k] := by
  induction d with
  | nil => simp [bumpBy, keysOf]
  | cons p rest ih =>
    obtain ⟨k0, v0⟩ := p
    by_cases h : k0 = k
    · subst h
      simp [bumpBy, keysOf]
    · have hne : ¬ (k = k0) := fun e => h e.symm
      simp only [bumpBy, if_neg h, keysOf, List.map_cons] at ih ⊢
      rw [ih]
      by_cases hm : k ∈ List.map Prod.fst rest
      · simp [hm, hne]
      · simp [hm, hne]

theorem nodupKeys_bumpBy (d : List (String × Nat)) (k : String) (v : Nat)
    (h : (keysOf d).Nodup) : (keysOf (bumpBy d k v)).Nodup := by
  rw [keysOf_bumpBy]
  by_cases hm : k ∈ keysOf d
  · simpa [hm] using h
  · simp only [hm, if_false]
    simp [List.nodup_append, h, hm]

theorem bumpBy_notmem (d : List (String × Nat)) (k : String) (v : Nat)
    (h : k ∉ keysOf d) : bumpBy d k v = d ++ [(k, v)] := by
  induction d with
  | nil => simp [bumpBy]
  | cons p rest ih =>
    obtain ⟨k0, v0⟩ := p
    simp only [keysOf, List.map_cons, List.mem_cons, not_or] at h
    have h0 : ¬ (k0 = k) := fun e => h.1 e.symm
    simp only [bumpBy, if_neg h0, List.cons_append]
    rw [ih]
    intro hm
    exact h.2 hm

theorem dedupFirstAux_congr (l : List String) :
    ∀ s1 s2 : List String, (∀ a, a ∈ s1 ↔ a ∈ s2) →
      dedupFirstAux s1 l = dedupFirstAux s2 l := by
  induction l with
  | nil => intro s1 s2 _; rfl
  | cons x xs ih =>
    intro s1 s2 h
    by_cases hx : x ∈ s1
    · have hx2 : x ∈ s2 := (h x).mp hx
      simp only [dedupFirstAux, if_pos hx, if_pos hx2]
      exact ih s1 s2 h
    · have hx2 : x ∉ s2 := fun hm => hx ((h x).mpr hm)
      simp only [dedupFirstAux, if_neg hx, if_neg hx2]
      rw [ih (x :: s1) (x :: s2) (fun a => by simp [h a])]

theorem mem_of_dedupFirstAux (l : List String) :
    ∀ (s : List String) (k : String), k ∈ dedupFirstAux s l → k ∈ l ∧ k ∉ s := by
  induction l with
  | nil => intro s k h; simp [dedupFirstAux] at h
  | cons x xs ih =>
    intro s k h
    by_cases hx : x ∈ s
    · simp only [dedupFirstAux, if_pos hx] at h
      obtain ⟨h1, h2⟩ := ih s k h
      exact ⟨List.mem_cons_of_mem x h1, h2⟩
    · simp only [dedupFirstAux, if_neg hx, List.mem_cons] at h
      rcases h with rfl | h
      · exact ⟨List.mem_cons_self k xs, hx⟩
      · obtain ⟨h1, h2⟩ := ih (x :: s) k h
        simp only [List.mem_cons, not_or] at h2
        exact ⟨List.mem_cons_of_mem x h1, h2.2⟩

theorem dedupFirstAux_mem_of (l : List String) :
    ∀ (s : List String) (k : String), k ∈ l → k ∉ s → k ∈ dedupFirstAux s l := by
  induction l with
  | nil => intro s k h _; simp at h
  | cons x xs ih =>
    intro s k h hs
    rcases List.mem_cons.mp h with rfl | h
    · simp only [dedupFirstAux, if_neg hs]
      exact List.mem_cons_self k _
    · by_cases hx : x ∈ s
      · simp only [dedupFirstAux, if_pos hx]
        exact ih s k h hs
      · simp only [dedupFirstAux, if_neg hx]
        by_cases hkx : k = x
        · subst hkx
          exact List.mem_cons_self k _
        · refine List.mem_cons_of_mem x (ih (x :: s) k h ?_)
          simp only [List.mem_cons, not_or]
          exact ⟨hkx, hs⟩

theorem bump_mem_map (xs : List String) (x : String) :
    ∀ al : List (String × Nat), x ∈ keysOf al → (keysOf al).Nodup →
      (bumpBy al x 1).map (fun p => (p.1, p.2 + countOcc xs p.1)) =
        al.map (fun p => (p.1, p.2 + countOcc (x :: xs) p.1)) := by
  intro al
  induction al with
  | nil => intro h _; simp [keysOf] at h
  | cons p rest ih =>
    obtain ⟨k0, v0⟩ := p
    intro hmem hnd
    simp only [keysOf, List.map_cons, List.nodup_cons] at hnd
    by_cases h0 : k0 = x
    · subst h0
      have hb : bumpBy ((k0, v0) :: rest) k0 1 = (k0, v0 + 1) :: rest := by
        simp [bumpBy]
      rw [hb]
      simp only [List.map_cons]
      congr 1
      · rw [countOcc_cons_self]
        congr 1
        omega
      · apply List.map_congr_left
        intro q hq
        have hq1 : q.1 ∈ List.map Prod.fst rest := List.mem_map_of_mem Prod.fst hq
        have hne : k0 ≠ q.1 := fun e => hnd.1 (e ▸ hq1)
        rw [countOcc_cons_ne xs k0 q.1 hne]
    · have hmem' : x ∈ keysOf rest := by
        simp only [keysOf, List.map_cons, List.mem_cons] at hmem
        rcases hmem with h | h
        · exact absurd h.symm h0
        · exact h
      have hb : bumpBy ((k0, v0) :: rest) x 1 = (k0, v0) :: bumpBy rest x 1 := by
        simp [bumpBy, h0]
      rw [hb]
      simp only [List.map_cons]
      congr 1
      · rw [countOcc_cons_ne xs x k0 (fun e => h0 e.symm)]
      · exact ih hmem' hnd.2

theorem foldl_bump_eq (l : List String) :
    ∀ al : List (String × Nat), (keysOf al).Nodup →
      l.foldl (fun a k => bumpBy a k 1) al =
        al.map (fun p => (p.1, p.2 + countOcc l p.1)) ++
          (dedupFirstAux (keysOf al) l).map (fun k => (k, countOcc l k)) := by
  induction l with
  | nil =>
    intro al _
    simp [dedupFirstAux, countOcc]
  | cons x xs ih =>
    intro al hnd
    rw [List.foldl_cons, ih (bumpBy al x 1) (nodupKeys_bumpBy al x 1 hnd)]
    by_cases hx : x ∈ keysOf al
    · rw [bump_mem_map xs x al hx hnd]
      have hkeys : keysOf (bumpBy al x 1) = keysOf al := by
        rw [keysOf_bumpBy, if_pos hx]
      rw [hkeys]
      have hded : dedupFirstAux (keysOf al) (x :: xs) = dedupFirstAux (keysOf al) xs := by
        simp only [dedupFirstAux, if_pos hx]
      rw [hded]
      congr 1
      apply List.map_congr_left
      intro k hk
      have hk2 := (mem_of_dedupFirstAux xs (keysOf al) k hk).2
      have : x ≠ k := fun e => hk2 (e ▸ hx)
      rw [countOcc_cons_ne xs x k this]
    · rw [bumpBy_notmem al x 1 hx]
      have hkeys : keysOf (al ++ [(x, 1)]) = keysOf al ++ [x] := by
        simp [keysOf]
      rw [hkeys]
      have hded1 : dedupFirstAux (keysOf al ++ [x]) xs = dedupFirstAux (x :: keysOf al) xs :=
        dedupFirstAux_congr xs _ _ (fun a => by simp [or_comm])
      have hded2 : dedupFirstAux (keysOf al) (x :: xs) = x :: dedupFirstAux (x :: keysOf al) xs := by
        simp only [dedupFirstAux, if_neg hx]
      rw [hded1, hded2]
      simp only [List.map_append, List.map_cons, List.map_nil, List.append_assoc,
        List.singleton_append]
      congr 1
      · apply List.map_congr_left
        intro q hq
        have hq1 : q.1 ∈ keysOf al := List.mem_map_of_mem Prod.fst hq
        have : x ≠ q.1 := fun e => hx (e ▸ hq1)
        rw [countOcc_cons_ne xs x q.1 this]
      · congr 1
        · rw [countOcc_cons_self]
          congr 1
          omega
        · apply List.map_congr_left
          intro k hk
          have hk2 := (mem_of_dedupFirstAux xs (x :: keysOf al) k hk).2
          simp only [List.mem_cons, not_or] at hk2
          rw [countOcc_cons_ne xs x k (fun e => hk2.1 e.symm)]

theorem buildLangs_eq_fold (nodes : List RepoNode) :
    buildLangs nodes = (langsOf nodes).foldl (fun a k => bumpBy a k 1) [] := by
  suffices h : ∀ (l : List RepoNode) (acc : List (String × Nat)),
      l.foldl (fun acc r =>
        match detected r with
        | some lang => bumpBy acc lang 1
        | none => acc) acc =
      (l.filterMap detected).foldl (fun a k => bumpBy a k 1) acc by
    exact h nodes []
  intro l
  induction l with
  | nil => intro acc; rfl
  | cons r rest ih =>
    intro acc
    cases h : detected r with
    | none => simp only [List.foldl_cons, List.filterMap_cons, h, ih]
    | some lang => simp only [List.foldl_cons, List.filterMap_cons, h, ih]

theorem buildLangs_eq (nodes : List RepoNode) :
    buildLangs nodes =
      (dedupFirst (langsOf nodes)).map
        (fun k => (k, countOcc (langsOf nodes) k)) := by
  rw [buildLangs_eq_fold, foldl_bump_eq (langsOf nodes) [] (by simp [keysOf])]
  simp [keysOf, dedupFirst]

theorem le_maxOver (c : String → Nat) (dl : List String) (k : String) (h : k ∈ dl) :
    c k ≤ maxOver c dl := by
  induction dl with
  | nil => simp at h
  | cons x xs ih =>
    rcases List.mem_cons.mp h with rfl | h
    · simp [maxOver]
    · simp only [maxOver]
      exact le_trans (ih h) (le_max_right _ _)

theorem firstSuch_some (p : String → Bool) (l : List String) :
    ∀ k, firstSuch p l = some k → k ∈ l ∧ p k = true := by
  induction l with
  | nil => intro k h; simp [firstSuch] at h
  | cons x xs ih =>
    intro k h
    by_cases hx : p x
    · simp only [firstSuch, if_pos hx, Option.some.injEq] at h
      subst h
      exact ⟨List.mem_cons_self _ _, hx⟩
    · simp only [firstSuch, if_neg hx] at h
      obtain ⟨h1, h2⟩ := ih k h
      exact ⟨List.mem_cons_of_mem x h1, h2⟩

theorem pyMaxVal_spec (c : String → Nat) (dl : List String) :
    ∀ (bk : String) (bv : Nat),
      (maxOver c dl ≤ bv →
        pyMaxVal (bk, bv) (dl.map (fun k => (k, c k))) = (bk, bv)) ∧
      (bv < maxOver c dl →
        ∃ km, firstSuch (fun k => c k == maxOver c dl) dl = some km ∧
          pyMaxVal (bk, bv) (dl.map (fun k => (k, c k))) = (km, maxOver c dl)) := by
  induction dl with
  | nil =>
    intro bk bv
    constructor
    · intro _; rfl
    · intro h
      simp [maxOver] at h
  | cons x xs ih =>
    intro bk bv
    have hM : maxOver c (x :: xs) = max (c x) (maxOver c xs) := rfl
    constructor
    · intro hle
      rw [hM] at hle
      have hx : ¬ (c x > bv) := by omega
      rw [List.map_cons]
      show (if c x > bv then pyMaxVal (x, c x) (xs.map fun k => (k, c k))
            else pyMaxVal (bk, bv) (xs.map fun k => (k, c k))) = (bk, bv)
      rw [if_neg hx]
      exact (ih bk bv).1 (by omega)
    · intro hlt
      rw [hM] at hlt
      rw [List.map_cons]
      show ∃ km, firstSuch (fun k => c k == maxOver c (x :: xs)) (x :: xs) = some km ∧
        (if c x > bv then pyMaxVal (x, c x) (xs.map fun k => (k, c k))
         else pyMaxVal (bk, bv) (xs.map fun k => (k, c k))) = (km, maxOver c (x :: xs))
      by_cases hx : c x > bv
      · rw [if_pos hx]
        by_cases hxs : maxOver c xs ≤ c x
        · have hMx : maxOver c (x :: xs) = c x := by rw [hM]; omega
          refine ⟨x, ?_, ?_⟩
          · rw [hMx]
            simp [firstSuch]
          · rw [(ih x (c x)).1 hxs, hMx]
        · have hbig : c x < maxOver c xs := by omega
          obtain ⟨km, hfind, hval⟩ := (ih x (c x)).2 hbig
          have hMxs : maxOver c (x :: xs) = maxOver c xs := by rw [hM]; omega
          refine ⟨km, ?_, ?_⟩
          · rw [hMxs]
            simp only [firstSuch]
            rw [if_neg (by simp; omega)]
            exact hfind
          · rw [hval, hMxs]
      · rw [if_neg hx]
        have hbv : bv < maxOver c xs := by omega
        obtain ⟨km, hfind, hval⟩ := (ih bk bv).2 hbv
        have hMxs : maxOver c (x :: xs) = maxOver c xs := by rw [hM]; omega
        refine ⟨km, ?_, ?_⟩
        · rw [hMxs]
          simp only [firstSuch]
          rw [if_neg (by simp; omega)]
          exact hfind
        · rw [hval, hMxs]

theorem dedupFirst_ne_nil (L : List String) (h : L ≠ []) : dedupFirst L ≠ [] := by
  obtain ⟨x, xs, rfl⟩ := List.exists_cons_of_ne_nil h
  intro hc
  have : x ∈ dedupFirstAux [] (x :: xs) :=
    dedupFirstAux_mem_of (x :: xs) [] x (List.mem_cons_self x xs) (by simp)
  rw [dedupFirst] at hc
  rw [hc] at this
  simp at this

theorem pyMaxKey_buildLangs (nodes : List RepoNode) (hne : langsOf nodes ≠ []) :
    ∃ km, firstSuch
        (fun k => countOcc (langsOf nodes) k == maxCountOf (langsOf nodes))
        (dedupFirst (langsOf nodes)) = some km ∧
      pyMaxKey (buildLangs nodes) = some km := by
  obtain ⟨d, ds, hdl⟩ := List.exists_cons_of_ne_nil (dedupFirst_ne_nil _ hne)
  have hM : maxCountOf (langsOf nodes) =
      max (countOcc (langsOf nodes) d) (maxOver (fun k => countOcc (langsOf nodes) k) ds) := by
    rw [maxCountOf, hdl]
    rfl
  rw [buildLangs_eq, hdl, List.map_cons]
  by_cases h : maxOver (fun k => countOcc (langsOf nodes) k) ds ≤ countOcc (langsOf nodes) d
  · have hMd : maxCountOf (langsOf nodes) = countOcc (langsOf nodes) d := by omega
    refine ⟨d, ?_, ?_⟩
    · rw [hMd]
      simp [firstSuch]
    · show some (pyMaxVal (d, countOcc (langsOf nodes) d)
        (ds.map fun k => (k, countOcc (langsOf nodes) k))).1 = some d
      rw [(pyMaxVal_spec (fun k => countOcc (langsOf nodes) k) ds d
        (countOcc (langsOf nodes) d)).1 h]
  · have hlt : countOcc (langsOf nodes) d <
        maxOver (fun k => countOcc (langsOf nodes) k) ds := by omega
    obtain ⟨km, hfind, hval⟩ := (pyMaxVal_spec (fun k => countOcc (langsOf nodes) k) ds d
      (countOcc (langsOf nodes) d)).2 hlt
    have hMds : maxCountOf (langsOf nodes) =
        maxOver (fun k => countOcc (langsOf nodes) k) ds := by omega
    refine ⟨km, ?_, ?_⟩
    · simp only [firstSuch]
      rw [if_neg (by simp [hMds]; omega)]
      rw [hMds]
      exact hfind
    · show some (pyMaxVal (d, countOcc (langsOf nodes) d)
        (ds.map fun k => (k, countOcc (langsOf nodes) k))).1 = some km
      rw [hval]

/-- Claim C5 (amended): on a successful repository-listing response the
computed primary language is the stable argmax of detected languages —
the first language, in order of first occurrence in the listing, whose
repository count is greatest; it is the sentinel "N/A" whenever no listed
repository has a detected (non-null, non-empty) language, and the converse
also holds provided no repository's language is literally named "N/A"
(without that proviso the sentinel is ambiguous, see the
counterexample). -/
theorem primary_language_stable_argmax (r : AddResponse) (repos : Repositories)
    (hs : r.status = 200) (he : r.hasErrors = false) (hu : r.user = some repos) :
    (langsOf repos.nodes = [] → (getAdditionalUserData r).primary_language = "N/A") ∧
    (langsOf repos.nodes ≠ [] →
      firstSuch
          (fun k => countOcc (langsOf repos.nodes) k == maxCountOf (langsOf repos.nodes))
          (dedupFirst (langsOf repos.nodes)) =
        some (getAdditionalUserData r).primary_language ∧
      (getAdditionalUserData r).primary_language ∈ langsOf repos.nodes ∧
      ∀ k ∈ langsOf repos.nodes,
        countOcc (langsOf repos.nodes) k ≤
          countOcc (langsOf repos.nodes) (getAdditionalUserData r).primary_language) ∧
    ("N/A" ∉ langsOf repos.nodes →
      ((getAdditionalUserData r).primary_language = "N/A" ↔ langsOf repos.nodes = [])) := by
  have hval : (getAdditionalUserData r).primary_language = primaryLanguageOf repos.nodes := by
    simp [getAdditionalUserData, hs, he, hu]
  have hempty : langsOf repos.nodes = [] →
      (getAdditionalUserData r).primary_language = "N/A" := by
    intro hL
    rw [hval, primaryLanguageOf, buildLangs_eq, hL]
    rfl
  have hfull : langsOf repos.nodes ≠ [] →
      firstSuch
          (fun k => countOcc (langsOf repos.nodes) k == maxCountOf (langsOf repos.nodes))
          (dedupFirst (langsOf repos.nodes)) =
        some (getAdditionalUserData r).primary_language ∧
      (getAdditionalUserData r).primary_language ∈ langsOf repos.nodes ∧
      ∀ k ∈ langsOf repos.nodes,
        countOcc (langsOf repos.nodes) k ≤
          countOcc (langsOf repos.nodes) (getAdditionalUserData r).primary_language := by
    intro hne
    obtain ⟨km, hfind, hkey⟩ := pyMaxKey_buildLangs repos.nodes hne
    have hpl : (getAdditionalUserData r).primary_language = km := by
      rw [hval, primaryLanguageOf, hkey]
      rfl
    obtain ⟨hmem, hp⟩ := firstSuch_some _ _ km hfind
    have hkmL : km ∈ langsOf repos.nodes :=
      (mem_of_dedupFirstAux (langsOf repos.nodes) [] km hmem).1
    have hcnt : countOcc (langsOf repos.nodes) km = maxCountOf (langsOf repos.nodes) := by
      simpa using hp
    refine ⟨?_, ?_, ?_⟩
    · rw [hpl]; exact hfind
    · rw [hpl]; exact hkmL
    · intro k hk
      rw [hpl, hcnt]
      exact le_maxOver _ _ k
        (dedupFirstAux_mem_of (langsOf repos.nodes) [] k hk (by simp))
  refine ⟨hempty, hfull, ?_⟩
  intro hNA
  constructor
  · intro hres
    by_contra hne
    have := (hfull hne).2.1
    rw [hres] at this
    exact hNA this
  · exact hempty

/-- Claim C5 counterexample: a repository whose primary language is
literally named "N/A" makes `_get_additional_user_data` report "N/A"
although the user does have a repository with a detected language — the
"exactly when" of the claim fails. -/
theorem primary_language_sentinel_counterexample :
    (getAdditionalUserData
        ⟨200, false, some ⟨1, [⟨some ⟨some "N/A"⟩⟩]⟩⟩).primary_language = "N/A" ∧
    langsOf [⟨some ⟨some "N/A"⟩⟩] ≠ [] := by
  constructor
  · rfl
  · decide

theorem primary_language_stable_argmax_witness :
    langsOf w5nodes ≠ [] ∧
    firstSuch (fun k => countOcc (langsOf w5nodes) k == maxCountOf (langsOf w5nodes))
        (dedupFirst (langsOf w5nodes)) =
      some (getAdditionalUserData ⟨200, false, some ⟨3, w5nodes⟩⟩).primary_language := by
  refine ⟨by decide, ?_⟩
  exact ((primary_language_stable_argmax ⟨200, false, some ⟨3, w5nodes⟩⟩ ⟨3, w5nodes⟩
    rfl rfl rfl).2.1 (by decide)).1
